import Mathlib

/-!
Verification development for the Pascal VOC to YOLO label converter
(`VOC_to_YOLO_convertor.py`).

Modelling conventions:
* Python floats are modelled as exact rationals (`ℚ`); Python `int` as `ℤ`/`ℕ`.
* Fallible Python code (exceptions) is modelled with `Except`/`Option`.
* The file system is modelled as finite association lists:
  image files as `ImgFS` (a path either maps to readable pixel dimensions or is
  present but unreadable), output text files as `OutFS` (path to content, where
  a write prepends and lookup returns the most recent write).
* Python f-string formatting of floats is modelled by `renderFloat`, an exact
  decimal renderer (integral values render with a trailing `.0`, as Python
  does; non-terminating decimals are truncated after 40 digits, a case no
  claim exercises).
* The parallel batch run is modelled at task granularity: each conversion task
  executes atomically and a run is the sequential execution of the task list in
  an arbitrary completion order (a permutation of the enumerated units).
-/

/-- Coordinate transformer, translated from `convert_pascal_to_yolo` (lines
57-83 of the source): size is `(width, height)`, box is
`(xmin, ymin, xmax, ymax)`; returns normalized `(x_center, y_center, w, h)`. -/
def convert_pascal_to_yolo (size : ℚ × ℚ) (box : ℚ × ℚ × ℚ × ℚ) :
    ℚ × ℚ × ℚ × ℚ :=
  let dw := 1 / size.1
  let dh := 1 / size.2
  let x := (box.1 + box.2.2.1) / 2
  let y := (box.2.1 + box.2.2.2) / 2
  let w := box.2.2.1 - box.1
  let h := box.2.2.2 - box.2.1
  (x * dw, y * dh, w * dw, h * dh)

/-- First index of `name` in the class table, mirroring Python `list.index`
(first match wins), with the running index as accumulator. -/
def listIndexAux (name : String) : List String → ℕ → Option ℕ
  | [], _ => none
  | x :: xs, k => if x = name then some k else listIndexAux name xs (k + 1)

/-- Class resolver, translated from `get_class_id` (lines 39-55): returns the
index of the first matching entry of the class table, or raises `ValueError`
(modelled as `Except.error`) when the name is absent. -/
def get_class_id (tbl : List String) (name : String) : Except String ℕ :=
  match listIndexAux name tbl 0 with
  | some i => Except.ok i
  | none => Except.error ("Class " ++ name ++ " not found in OCR_CHARACTERS_NAME list")

/-- Decimal digits of the fraction `r / d` (with `r < d`), most significant
first, by long division; fuel bounds the number of emitted digits. -/
def fracDigitsAux : ℕ → ℕ → ℕ → String
  | 0, _, _ => ""
  | fuel + 1, r, d =>
    if r = 0 then ""
    else toString (r * 10 / d) ++ fracDigitsAux fuel (r * 10 % d) d

/-- Exact decimal rendering of a rational, modelling Python float formatting:
integral values get a trailing `.0`, fractional parts are printed exactly
(up to 40 digits, which covers every value the claims exercise). -/
def renderFloat (q : ℚ) : String :=
  let s := if q.num < 0 then "-" else ""
  let n := q.num.natAbs
  let d := q.den
  s ++ toString (n / d) ++ "." ++ (if n % d = 0 then "0" else fracDigitsAux 40 (n % d) d)

/-- One output line, modelling the f-string
`f"{class_id} {x} {y} {w} {h}"` of line 190. -/
def renderLine (cid : ℕ) (b : ℚ × ℚ × ℚ × ℚ) : String :=
  toString cid ++ " " ++ renderFloat b.1 ++ " " ++ renderFloat b.2.1 ++ " " ++
    renderFloat b.2.2.1 ++ " " ++ renderFloat b.2.2.2

/-- Bounding box element of one object. Each coordinate is `some` the parsed
float when the child element is present with parsable text; `none` models a
missing child or unparsable text, on which the source raises
(`bndbox.find(..).text` / `float` fails at lines 178-181). -/
structure BndBox where
  xmin : Option ℚ
  ymin : Option ℚ
  xmax : Option ℚ
  ymax : Option ℚ

/-- One `object` element. `nameElem = none` models a missing `name` child (on
which the text access on the result of find raises at line 167); `some none` a `name`
child with empty text; `some (some s)` a name with text `s`. -/
structure XmlObject where
  nameElem : Option (Option String)
  bndbox : Option BndBox

/-- The parsed annotation tree, restricted to the fields the converter reads:
the `size` element (with its `width`/`height` children, `none` on a missing or
unparsable child), the `filename` element, and the object list in document
order. -/
structure XmlTree where
  sizeElem : Option (Option ℤ × Option ℤ)
  filenameElem : Option (Option String)
  objects : List XmlObject

/-- Image files on disk: a path maps to `some (w, h)` when `Image.open`
succeeds with those pixel dimensions, to `none` when the file exists but
opening it raises; an absent path does not exist. -/
abbrev ImgFS := List (String × Option (ℤ × ℤ))

/-- First-match lookup in the image file system. -/
def imgLookup : ImgFS → String → Option (Option (ℤ × ℤ))
  | [], _ => none
  | (q, r) :: rest, p => if p = q then some r else imgLookup rest p

/-- Failure modes of `get_image_size`: a malformed embedded `size` element
(line 101-102 raising), an existing but unreadable image (lines 117/128), and
the final `ValueError` of line 130 when every attempt failed, carrying the
annotation path and its base stem. -/
inductive SizeErr where
  | malformedSize : SizeErr
  | couldNotRead : String → SizeErr
  | sizeUnresolved : String → String → SizeErr
deriving DecidableEq

/-- Diagnostic strings of the size resolver, mirroring the messages the
source builds (the `SizeUnresolved` case is the f-string of line 130). -/
def sizeErrMsg : SizeErr → String
  | SizeErr.malformedSize => "malformed size element"
  | SizeErr.couldNotRead p => "Could not read image dimensions from " ++ p
  | SizeErr.sizeUnresolved xmlPath stem =>
      "Could not find corresponding image file for " ++ xmlPath ++
        ". Tried: " ++ stem ++ ".jpg/.jpeg/.png/.bmp"

/-- The ordered extension list of line 110. -/
def extList : List String := [".jpg", ".jpeg", ".png", ".bmp"]

/-- Path join, modelling `os.path.join dir name`. -/
def joinPath (dir name : String) : String := dir ++ "/" ++ name

/-- The extension loop of lines 110-117: the first extension whose sibling
file exists decides the result (its size, or an unreadable-image error);
`none` when no candidate exists and the loop falls through. -/
def tryExts (fs : ImgFS) (dir stem : String) :
    List String → Option (Except SizeErr (ℤ × ℤ))
  | [] => none
  | ext :: rest =>
    let p := joinPath dir (stem ++ ext)
    match imgLookup fs p with
    | some (some wh) => some (Except.ok wh)
    | some none => some (Except.error (SizeErr.couldNotRead p))
    | none => tryExts fs dir stem rest

/-- Image size resolver, translated from `get_image_size` (lines 85-130):
first the embedded `size` element, then sibling files by stem over `extList`,
then the file declared by the `filename` element; the final `ValueError`
(modelled as `sizeUnresolved`) is raised only when all attempts fail. -/
def get_image_size (fs : ImgFS) (dir xmlPath stem : String) (xml : XmlTree) :
    Except SizeErr (ℤ × ℤ) :=
  match xml.sizeElem with
  | some (some w, some h) => Except.ok (w, h)
  | some _ => Except.error SizeErr.malformedSize
  | none =>
    match tryExts fs dir stem extList with
    | some r => r
    | none =>
      match xml.filenameElem with
      | some (some fn) =>
        if fn = "" then Except.error (SizeErr.sizeUnresolved xmlPath stem)
        else
          match imgLookup fs (joinPath dir fn) with
          | some (some wh) => Except.ok wh
          | some none => Except.error (SizeErr.couldNotRead (joinPath dir fn))
          | none => Except.error (SizeErr.sizeUnresolved xmlPath stem)
      | _ => Except.error (SizeErr.sizeUnresolved xmlPath stem)

/-- Characters of the final path component (after the last slash). -/
def basenameChars (l : List Char) : List Char :=
  (l.reverse.takeWhile (fun c => c != '/')).reverse

/-- Directory part of a path, modelling `os.path.dirname`: everything before
the last slash (empty when the path has no slash). -/
def dirname (p : String) : String :=
  match p.data.reverse.dropWhile (fun c => c != '/') with
  | [] => ""
  | _ :: rest => rest.reverse.asString

/-- Stem of one path component under Python `os.path.splitext`: the extension
starts at the last dot, except that leading dots of the component never start
an extension (so a component named `.xml` has no extension). -/
def stemChars (base : List Char) : List Char :=
  let frac := base.reverse.takeWhile (fun c => c != '.')
  if frac.length = base.length then base
  else
    let stem := base.take (base.length - frac.length - 1)
    if stem.all (fun c => c == '.') then base else stem

/-- Stem of a full path: directory part kept, extension of the final
component removed, modelling `os.path.splitext(p)[0]`. -/
def splitextStem (p : String) : String :=
  let base := basenameChars p.data
  (p.data.take (p.data.length - base.length) ++ stemChars base).asString

/-- Stem of the basename, as in line 107 of the source. -/
def baseStem (p : String) : String := (stemChars (basenameChars p.data)).asString

/-- Destination path of a unit: output root joined with the relative path,
extension replaced by `.txt` (lines 156-158). -/
def outputPath (outRoot relPath : String) : String :=
  splitextStem (joinPath outRoot relPath) ++ ".txt"

/-- Exceptions an object iteration can raise inside the `with open` block
(lines 165-190): a missing `name` element, a `bndbox` present but missing a
coordinate, division by a zero image dimension, and the `ValueError` of
`get_class_id` (unreachable in the loop because membership in the class table
is checked first). -/
inductive ObjErr where
  | missingName : ObjErr
  | missingCoord : ObjErr
  | divByZero : ObjErr
  | unknownClass : ObjErr
deriving DecidableEq

/-- Diagnostic strings for the object-level exceptions. -/
def objErrMsg : ObjErr → String
  | ObjErr.missingName => "AttributeError: NoneType object has no attribute text"
  | ObjErr.missingCoord => "AttributeError: NoneType object has no attribute text"
  | ObjErr.divByZero => "ZeroDivisionError: float division by zero"
  | ObjErr.unknownClass => "Class not found in OCR_CHARACTERS_NAME list"

/-- Processing of one `object` element, following lines 166-190 in order:
read the name (raising when the element is missing), skip when the class name
is not in the table, skip when `bndbox` is absent, raise when a coordinate
child is missing, convert (raising on a zero dimension, as the Python
division does), resolve the class id, and emit the line. Returns `ok none`
for a skipped object, `ok (some line)` for an emitted line. -/
def stepObj (tbl : List String) (w h : ℤ) (o : XmlObject) :
    Except ObjErr (Option String) :=
  match o.nameElem with
  | none => Except.error ObjErr.missingName
  | some none => Except.ok none
  | some (some cn) =>
    if cn ∈ tbl then
      match o.bndbox with
      | none => Except.ok none
      | some bb =>
        match bb.xmin, bb.ymin, bb.xmax, bb.ymax with
        | some x0, some y0, some x1, some y1 =>
          if w = 0 ∨ h = 0 then Except.error ObjErr.divByZero
          else
            let yb := convert_pascal_to_yolo ((w : ℚ), (h : ℚ)) (x0, y0, x1, y1)
            match get_class_id tbl cn with
            | Except.ok cid => Except.ok (some (renderLine cid yb))
            | Except.error _ => Except.error ObjErr.unknownClass
        | _, _, _, _ => Except.error ObjErr.missingCoord
    else Except.ok none

/-- The object loop inside `with open` (lines 164-190): lines are written one
by one in document order; the first raising object aborts the loop, leaving
the lines written so far in the (already truncated) file. Returns the written
lines and the aborting exception, if any. -/
def runObjects (tbl : List String) (w h : ℤ) :
    List XmlObject → List String → List String × Option ObjErr
  | [], acc => (acc.reverse, none)
  | o :: os, acc =>
    match stepObj tbl w h o with
    | Except.error e => (acc.reverse, some e)
    | Except.ok none => runObjects tbl w h os acc
    | Except.ok (some line) => runObjects tbl w h os (line :: acc)

/-- File content from written lines: each `f.write` of line 190 appends one
line with a trailing newline. -/
def linesToContent (ls : List String) : String :=
  String.join (ls.map (fun l => l ++ "\n"))

/-- Conversion outcome, the `(success, xml_path, message)` tuple returned by
`process_xml_file` (line 141). -/
structure Outcome where
  success : Bool
  path : String
  msg : String
deriving DecidableEq

/-- Per-run configuration: source root, output root, and the class table
(the module constants of lines 25-35, passed explicitly). -/
structure Config where
  srcRoot : String
  outRoot : String
  classTable : List String

/-- One enumerated source unit: its path relative to the source root, and the
result of parsing it (`none` when `ET.parse` raises). -/
structure SrcUnit where
  relPath : String
  xml : Option XmlTree

/-- Output text files: most recent write first, so lookup returns the last
write to a path. -/
abbrev OutFS := List (String × String)

/-- Lookup of the current content of an output file. -/
def fsLookup : OutFS → String → Option String
  | [], _ => none
  | (p, c) :: rest, q => if q = p then some c else fsLookup rest q

/-- Conversion task, translated from `process_xml_file` (lines 133-195):
parse (a parse failure reaches the outer handler), resolve the image size
(failure returns before any output path is touched), then open the
destination in truncating write mode and convert the objects in order; the
outcome is a failure exactly when parsing, size resolution, or some object
raised, and the output file holds whatever was written before the abort. -/
def process_xml_file (cfg : Config) (imgs : ImgFS) (fs : OutFS) (u : SrcUnit) :
    Outcome × OutFS :=
  let xmlPath := joinPath cfg.srcRoot u.relPath
  match u.xml with
  | none => (⟨false, xmlPath, "MalformedAnnotation: could not parse XML"⟩, fs)
  | some xml =>
    match get_image_size imgs (dirname xmlPath) xmlPath (baseStem xmlPath) xml with
    | Except.error e => (⟨false, xmlPath, sizeErrMsg e⟩, fs)
    | Except.ok (w, h) =>
      let yoloPath := outputPath cfg.outRoot u.relPath
      let r := runObjects cfg.classTable w h xml.objects []
      let fs2 := (yoloPath, linesToContent r.1) :: fs
      match r.2 with
      | none => (⟨true, xmlPath, "Success"⟩, fs2)
      | some e => (⟨false, xmlPath, objErrMsg e⟩, fs2)

/-- The file-system effect of one task in isolation: `none` when the task
fails before opening the destination, otherwise the destination path and the
full content the task leaves there. It does not depend on the current output
file system. -/
def unitEffect (cfg : Config) (imgs : ImgFS) (u : SrcUnit) :
    Option (String × String) :=
  let xmlPath := joinPath cfg.srcRoot u.relPath
  match u.xml with
  | none => none
  | some xml =>
    match get_image_size imgs (dirname xmlPath) xmlPath (baseStem xmlPath) xml with
    | Except.error _ => none
    | Except.ok (w, h) =>
      some (outputPath cfg.outRoot u.relPath,
        linesToContent (runObjects cfg.classTable w h xml.objects []).1)

/-- Application of the isolated file effect of a single task to the output file
system. -/
def applyEffect (eff : Option (String × String)) (fs : OutFS) : OutFS :=
  match eff with
  | none => fs
  | some pc => pc :: fs

/-- Batch execution of the tasks of a run in a given completion order, each
task atomic: the outcome list in that order, and the final output files. With
`PARALLEL = False` the order is the enumeration order; a parallel run is the
same fold over some permutation of the task list. -/
def runSeq (cfg : Config) (imgs : ImgFS) : List SrcUnit → OutFS → List Outcome × OutFS
  | [], fs => ([], fs)
  | u :: us, fs =>
    let r := process_xml_file cfg imgs fs u
    let rest := runSeq cfg imgs us r.2
    (r.1 :: rest.1, rest.2)

/-- The `successful_conversions` counter of the coordinator, incremented once
per successful outcome as results are collected (lines 266-267). -/
def countSucceeded : List Outcome → ℕ
  | [] => 0
  | o :: os => (if o.success then 1 else 0) + countSucceeded os

/-- The `failed_conversions` counter of the coordinator, incremented once per
failed outcome as results are collected (lines 268-269). -/
def countFailed : List Outcome → ℕ
  | [] => 0
  | o :: os => (if o.success then 0 else 1) + countFailed os

/-- Boolean success test for a fallible computation. -/
def exceptOk {ε α : Type} : Except ε α → Bool
  | Except.ok _ => true
  | Except.error _ => false

/-- Substring test on strings (used to state what a diagnostic message does
or does not carry). -/
def strContains (hay needle : String) : Bool :=
  hay.data.tails.any (fun t => needle.data.isPrefixOf t)

/-- Lines an object list would emit if no object raised, in document order:
skipped objects contribute nothing, converted objects one line each. -/
def emittedLines (tbl : List String) (w h : ℤ) (objs : List XmlObject) :
    List String :=
  objs.filterMap (fun o =>
    match stepObj tbl w h o with
    | Except.ok r => r
    | Except.error _ => none)

/-- Unconditional closed form of the transformer: multiplying by the
reciprocal is division, so each component is the spec formula (this holds in
`ℚ` with no positivity hypothesis). -/
theorem convert_pascal_to_yolo_eq (w h x0 y0 x1 y1 : ℚ) :
    convert_pascal_to_yolo (w, h) (x0, y0, x1, y1) =
      (((x0 + x1) / 2) / w, ((y0 + y1) / 2) / h, (x1 - x0) / w, (y1 - y0) / h) := by
  unfold convert_pascal_to_yolo
  simp only [Prod.mk.injEq, mul_one_div]

/-- Search with a running offset finds nothing exactly when the name is
absent. -/
theorem listIndexAux_eq_none_iff (name : String) :
    ∀ (tbl : List String) (k : ℕ), listIndexAux name tbl k = none ↔ name ∉ tbl := by
  intro tbl
  induction tbl with
  | nil => intro k; simp [listIndexAux]
  | cons x xs ih =>
    intro k
    rw [listIndexAux]
    by_cases hx : x = name
    · simp [hx]
    · rw [if_neg hx, ih (k + 1)]
      constructor
      · intro hnx hmem
        rcases List.mem_cons.mp hmem with he | hxs
        · exact hx he.symm
        · exact hnx hxs
      · intro hnc hxs
        exact hnc (List.mem_cons_of_mem x hxs)

/-- Search with a running offset returns the absolute position of the first
match. -/
theorem listIndexAux_eq_some (name : String) :
    ∀ (tbl : List String) (k i : ℕ), listIndexAux name tbl k = some i →
      k ≤ i ∧ tbl.get? (i - k) = some name ∧
        ∀ j, j < i - k → tbl.get? j ≠ some name := by
  intro tbl
  induction tbl with
  | nil => intro k i h; simp [listIndexAux] at h
  | cons x xs ih =>
    intro k i h
    by_cases hx : x = name
    · rw [listIndexAux, if_pos hx] at h
      have hki : k = i := Option.some.inj h
      subst hki
      refine ⟨le_refl k, ?_, ?_⟩
      · simp [Nat.sub_self, hx]
      · intro j hj
        omega
    · rw [listIndexAux, if_neg hx] at h
      obtain ⟨hki, hget, hmin⟩ := ih (k + 1) i h
      refine ⟨by omega, ?_, ?_⟩
      · have he : i - k = (i - (k + 1)) + 1 := by omega
        rw [he]
        simpa using hget
      · intro j hj
        cases j with
        | zero =>
          simp only [List.get?_cons_zero, ne_eq, Option.some.injEq]
          exact hx
        | succ j2 =>
          have : j2 < i - (k + 1) := by omega
          simpa using hmin j2 this

/-- Success and failure counts always add up to the number of outcomes. -/
theorem outcome_counts (outs : List Outcome) :
    countSucceeded outs + countFailed outs = outs.length := by
  induction outs with
  | nil => rfl
  | cons o os ih =>
    rw [countSucceeded, countFailed, List.length_cons]
    cases hs : o.success
    · rw [if_neg (by simp [hs]), if_neg (by simp [hs])]
      omega
    · rw [if_pos (by simp [hs]), if_pos (by simp [hs])]
      omega

/-- The batch fold produces exactly one outcome per processed unit. -/
theorem runSeq_fst_length (cfg : Config) (imgs : ImgFS) :
    ∀ (units : List SrcUnit) (fs : OutFS),
      ((runSeq cfg imgs units fs).1).length = units.length := by
  intro units
  induction units with
  | nil => intro fs; rfl
  | cons u us ih =>
    intro fs
    simp [runSeq, ih]

/-- The extension loop falls through exactly when no candidate file exists. -/
theorem tryExts_eq_none_iff (fs : ImgFS) (dir stem : String) :
    ∀ exts, tryExts fs dir stem exts = none ↔
      ∀ ext ∈ exts, imgLookup fs (joinPath dir (stem ++ ext)) = none := by
  intro exts
  induction exts with
  | nil => simp [tryExts]
  | cons e es ih =>
    cases hl : imgLookup fs (joinPath dir (stem ++ e)) with
    | none => simp [tryExts, hl, List.forall_mem_cons, ih]
    | some r =>
      cases r with
      | none => simp [tryExts, hl, List.forall_mem_cons]
      | some wh => simp [tryExts, hl, List.forall_mem_cons]

/-- An error produced by the extension loop is always an unreadable-image
error, never the final unresolved error. -/
theorem tryExts_error (fs : ImgFS) (dir stem : String) :
    ∀ exts e, tryExts fs dir stem exts = some (Except.error e) →
      ∃ p, e = SizeErr.couldNotRead p := by
  intro exts
  induction exts with
  | nil => intro e h; exact Option.noConfusion h
  | cons x xs ih =>
    intro e h
    cases hl : imgLookup fs (joinPath dir (stem ++ x)) with
    | none =>
      simp only [tryExts, hl] at h
      exact ih e h
    | some r =>
      cases r with
      | some wh => simp [tryExts, hl] at h
      | none =>
        simp only [tryExts, hl, Option.some.injEq] at h
        exact ⟨_, (Except.error.inj h).symm⟩

/-- A size produced by the extension loop always comes from a readable image
file on disk. -/
theorem tryExts_ok (fs : ImgFS) (dir stem : String) :
    ∀ exts wh, tryExts fs dir stem exts = some (Except.ok wh) →
      ∃ p, imgLookup fs p = some (some wh) := by
  intro exts
  induction exts with
  | nil => intro wh h; exact Option.noConfusion h
  | cons x xs ih =>
    intro wh h
    cases hl : imgLookup fs (joinPath dir (stem ++ x)) with
    | none =>
      simp only [tryExts, hl] at h
      exact ih wh h
    | some r =>
      cases r with
      | none => simp [tryExts, hl] at h
      | some wh2 =>
        simp only [tryExts, hl, Option.some.injEq] at h
        exact ⟨_, by rw [hl, (Except.ok.inj h)]⟩

/-- The extension loop skips non-existing candidates and is decided by the
first existing one. -/
theorem tryExts_first_existing (fs : ImgFS) (dir stem : String) :
    ∀ pre ext post, (∀ e ∈ pre, imgLookup fs (joinPath dir (stem ++ e)) = none) →
      tryExts fs dir stem (pre ++ ext :: post) =
        (match imgLookup fs (joinPath dir (stem ++ ext)) with
         | some (some wh) => some (Except.ok wh)
         | some none =>
             some (Except.error (SizeErr.couldNotRead (joinPath dir (stem ++ ext))))
         | none => tryExts fs dir stem post) := by
  intro pre
  induction pre with
  | nil => intro ext post h; rfl
  | cons e es ih =>
    intro ext post h
    have he := h e (List.mem_cons_self e es)
    simp only [List.cons_append, tryExts, he]
    exact ih ext post (fun x hx => h x (List.mem_cons_of_mem e hx))

/-- Characterization of the final unresolved failure of the size resolver: it
occurs exactly when the annotation has no embedded size element, no sibling
image with any tried extension exists, and the declared filename (when
present and nonempty) does not exist either. -/
theorem get_image_size_unresolved_iff (fs : ImgFS) (dir xmlPath stem : String)
    (xml : XmlTree) :
    get_image_size fs dir xmlPath stem xml =
        Except.error (SizeErr.sizeUnresolved xmlPath stem) ↔
      xml.sizeElem = none ∧
      (∀ ext ∈ extList, imgLookup fs (joinPath dir (stem ++ ext)) = none) ∧
      (∀ fn, xml.filenameElem = some (some fn) → fn ≠ "" →
        imgLookup fs (joinPath dir fn) = none) := by
  cases hse : xml.sizeElem with
  | some p =>
    obtain ⟨ow, oh⟩ := p
    cases ow with
    | some w =>
      cases oh with
      | some h => simp [get_image_size, hse]
      | none => simp [get_image_size, hse]
    | none => simp [get_image_size, hse]
  | none =>
    cases htry : tryExts fs dir stem extList with
    | some r =>
      have hnn : ¬ ∀ ext ∈ extList, imgLookup fs (joinPath dir (stem ++ ext)) = none := by
        intro hall
        rw [(tryExts_eq_none_iff fs dir stem extList).mpr hall] at htry
        exact Option.noConfusion htry
      cases r with
      | ok wh => simp [get_image_size, hse, htry, hnn]
      | error e2 =>
        obtain ⟨p, rfl⟩ := tryExts_error fs dir stem extList e2 htry
        simp [get_image_size, hse, htry, hnn]
    | none =>
      have hall := (tryExts_eq_none_iff fs dir stem extList).mp htry
      cases hfe : xml.filenameElem with
      | none =>
        simp [get_image_size, hse, htry, hfe, hall]
        exact hall
      | some ofn =>
        cases ofn with
        | none =>
          simp [get_image_size, hse, htry, hfe, hall]
          exact hall
        | some fn =>
          by_cases hfn : fn = ""
          · subst hfn
            simp [get_image_size, hse, htry, hfe, hall]
            exact hall
          · cases hlk : imgLookup fs (joinPath dir fn) with
            | none =>
              simp [get_image_size, hse, htry, hfe, hfn, hlk, hall]
              exact hall
            | some r =>
              cases r with
              | some wh => simp [get_image_size, hse, htry, hfe, hfn, hlk]
              | none => simp [get_image_size, hse, htry, hfe, hfn, hlk]

/-- C1: for every image size (w,h) with w>0 and h>0 and every corner box, the
coordinate transformer returns exactly
(((xmin+xmax)/2)/w, ((ymin+ymax)/2)/h, (xmax-xmin)/w, (ymax-ymin)/h) with no
clamping (the closed form holds for all inputs, so out-of-range values pass
through unchanged); and for the scenario unit a/img1.xml of size (100,50)
with one object cat at box (10,10,30,30) and class table [cat, dog], the
emitted output file yolo/a/img1.txt holds exactly the line
0 0.2 0.4 0.2 0.4 (with its trailing newline). -/
theorem c1_transformer_formula (w h x0 y0 x1 y1 : ℚ) (_hw : 0 < w) (_hh : 0 < h) :
    convert_pascal_to_yolo (w, h) (x0, y0, x1, y1) =
      (((x0 + x1) / 2) / w, ((y0 + y1) / 2) / h, (x1 - x0) / w, (y1 - y0) / h) ∧
    (process_xml_file ⟨"src", "yolo", ["cat", "dog"]⟩ [] []
        ⟨"a/img1.xml", some ⟨some (some 100, some 50), none,
          [⟨some (some "cat"), some ⟨some 10, some 10, some 30, some 30⟩⟩]⟩⟩).1.success
      = true ∧
    fsLookup (process_xml_file ⟨"src", "yolo", ["cat", "dog"]⟩ [] []
        ⟨"a/img1.xml", some ⟨some (some 100, some 50), none,
          [⟨some (some "cat"), some ⟨some 10, some 10, some 30, some 30⟩⟩]⟩⟩).2
        "yolo/a/img1.txt"
      = some "0 0.2 0.4 0.2 0.4\n" := by
  refine ⟨convert_pascal_to_yolo_eq w h x0 y0 x1 y1, ?_, ?_⟩
  · with_unfolding_all decide
  · with_unfolding_all decide

/-- Witness for C1 at size (100,50), box (10,10,30,30). -/
theorem c1_transformer_formula_witness :
    convert_pascal_to_yolo (100, 50) (10, 10, 30, 30) =
      (((10 + 30) / 2) / 100, ((10 + 30) / 2) / 50, (30 - 10) / 100, (30 - 10) / 50) :=
  (c1_transformer_formula 100 50 10 10 30 30 (by norm_num) (by norm_num)).1

/-- C2, counterexample: the claim quantifies over all boxes with merely
xmin < xmax ≤ w and ymin < ymax ≤ h, and asserts the output lies in [0,1]^4;
at size (100,50) and box (-200,10,30,30) the hypotheses hold but the
normalized width is 230/100 > 1, so the claim as stated is false. -/
theorem c2_unit_range_cex :
    ((-200 : ℚ) < 30 ∧ (30 : ℚ) ≤ 100 ∧ (10 : ℚ) < 30 ∧ (30 : ℚ) ≤ 50) ∧
    ¬ (convert_pascal_to_yolo (100, 50) (-200, 10, 30, 30)).2.2.1 ≤ 1 := by
  constructor
  · norm_num
  · rw [convert_pascal_to_yolo_eq]
    norm_num

/-- C2 amended: with the extra hypotheses 0 ≤ xmin and 0 ≤ ymin (so the box
lies inside the image), the transformed (x_center, y_center, width, height)
lies in [0,1]^4, and the inverse formula recovers the corner box exactly
(rationals model the real-number idealization, so the recovery is exact, in
particular within floating-point tolerance). -/
theorem c2_unit_box_roundtrip (w h x0 y0 x1 y1 : ℚ)
    (hx0 : 0 ≤ x0) (hx01 : x0 < x1) (hx1w : x1 ≤ w)
    (hy0 : 0 ≤ y0) (hy01 : y0 < y1) (hy1h : y1 ≤ h) :
    (0 ≤ (convert_pascal_to_yolo (w, h) (x0, y0, x1, y1)).1 ∧
      (convert_pascal_to_yolo (w, h) (x0, y0, x1, y1)).1 ≤ 1) ∧
    (0 ≤ (convert_pascal_to_yolo (w, h) (x0, y0, x1, y1)).2.1 ∧
      (convert_pascal_to_yolo (w, h) (x0, y0, x1, y1)).2.1 ≤ 1) ∧
    (0 ≤ (convert_pascal_to_yolo (w, h) (x0, y0, x1, y1)).2.2.1 ∧
      (convert_pascal_to_yolo (w, h) (x0, y0, x1, y1)).2.2.1 ≤ 1) ∧
    (0 ≤ (convert_pascal_to_yolo (w, h) (x0, y0, x1, y1)).2.2.2 ∧
      (convert_pascal_to_yolo (w, h) (x0, y0, x1, y1)).2.2.2 ≤ 1) ∧
    ((convert_pascal_to_yolo (w, h) (x0, y0, x1, y1)).1 -
        (convert_pascal_to_yolo (w, h) (x0, y0, x1, y1)).2.2.1 / 2) * w = x0 ∧
    ((convert_pascal_to_yolo (w, h) (x0, y0, x1, y1)).1 +
        (convert_pascal_to_yolo (w, h) (x0, y0, x1, y1)).2.2.1 / 2) * w = x1 ∧
    ((convert_pascal_to_yolo (w, h) (x0, y0, x1, y1)).2.1 -
        (convert_pascal_to_yolo (w, h) (x0, y0, x1, y1)).2.2.2 / 2) * h = y0 ∧
    ((convert_pascal_to_yolo (w, h) (x0, y0, x1, y1)).2.1 +
        (convert_pascal_to_yolo (w, h) (x0, y0, x1, y1)).2.2.2 / 2) * h = y1 := by
  have hw : (0 : ℚ) < w := lt_of_le_of_lt hx0 (hx01.trans_le hx1w)
  have hh : (0 : ℚ) < h := lt_of_le_of_lt hy0 (hy01.trans_le hy1h)
  have hwne : w ≠ 0 := ne_of_gt hw
  have hhne : h ≠ 0 := ne_of_gt hh
  rw [convert_pascal_to_yolo_eq]
  refine ⟨⟨?_, ?_⟩, ⟨?_, ?_⟩, ⟨?_, ?_⟩, ⟨?_, ?_⟩, ?_, ?_, ?_, ?_⟩
  · show 0 ≤ ((x0 + x1) / 2) / w
    apply div_nonneg _ hw.le
    linarith
  · show ((x0 + x1) / 2) / w ≤ 1
    rw [div_le_one hw]
    linarith
  · show 0 ≤ ((y0 + y1) / 2) / h
    apply div_nonneg _ hh.le
    linarith
  · show ((y0 + y1) / 2) / h ≤ 1
    rw [div_le_one hh]
    linarith
  · show 0 ≤ (x1 - x0) / w
    apply div_nonneg _ hw.le
    linarith
  · show (x1 - x0) / w ≤ 1
    rw [div_le_one hw]
    linarith
  · show 0 ≤ (y1 - y0) / h
    apply div_nonneg _ hh.le
    linarith
  · show (y1 - y0) / h ≤ 1
    rw [div_le_one hh]
    linarith
  · show (((x0 + x1) / 2) / w - ((x1 - x0) / w) / 2) * w = x0
    field_simp
    ring
  · show (((x0 + x1) / 2) / w + ((x1 - x0) / w) / 2) * w = x1
    field_simp
    ring
  · show (((y0 + y1) / 2) / h - ((y1 - y0) / h) / 2) * h = y0
    field_simp
    ring
  · show (((y0 + y1) / 2) / h + ((y1 - y0) / h) / 2) * h = y1
    field_simp
    ring

/-- Witness for the amended C2 at size (100,50), box (10,10,30,30). -/
theorem c2_unit_box_roundtrip_witness :
    ((convert_pascal_to_yolo (100, 50) (10, 10, 30, 30)).1 -
      (convert_pascal_to_yolo (100, 50) (10, 10, 30, 30)).2.2.1 / 2) * 100 = 10 :=
  (c2_unit_box_roundtrip 100 50 10 10 30 30 (by norm_num) (by norm_num) (by norm_num)
    (by norm_num) (by norm_num) (by norm_num)).2.2.2.2.1

/-- C8: the class resolver fails exactly when the name is absent from the
class table (never fabricating an index), and a returned index is the
zero-based position of the first matching entry. -/
theorem c8_class_resolver (tbl : List String) (name : String) :
    ((∃ msg, get_class_id tbl name = Except.error msg) ↔ name ∉ tbl) ∧
    (∀ i, get_class_id tbl name = Except.ok i →
      tbl.get? i = some name ∧ ∀ j, j < i → tbl.get? j ≠ some name) := by
  constructor
  · constructor
    · rintro ⟨msg, hmsg⟩
      unfold get_class_id at hmsg
      cases hfind : listIndexAux name tbl 0 with
      | none => exact (listIndexAux_eq_none_iff name tbl 0).mp hfind
      | some i =>
        simp only [hfind] at hmsg
        exact Except.noConfusion hmsg
    · intro hnot
      unfold get_class_id
      rw [(listIndexAux_eq_none_iff name tbl 0).mpr hnot]
      exact ⟨_, rfl⟩
  · intro i hok
    unfold get_class_id at hok
    cases hfind : listIndexAux name tbl 0 with
    | none =>
      simp only [hfind] at hok
      exact Except.noConfusion hok
    | some i2 =>
      simp only [hfind, Except.ok.injEq] at hok
      subst hok
      obtain ⟨-, hget, hmin⟩ := listIndexAux_eq_some name tbl 0 i2 hfind
      simp only [Nat.sub_zero] at hget hmin
      exact ⟨hget, hmin⟩

/-- Witness for C8 with class table [cat, dog] and name dog. -/
theorem c8_class_resolver_witness :
    (["cat", "dog"] : List String).get? 1 = some "dog" ∧
      ∀ j, j < 1 → (["cat", "dog"] : List String).get? j ≠ some "dog" :=
  (c8_class_resolver ["cat", "dog"] "dog").2 1 (by rfl)

/-- C5: for every run and any completion order (any permutation of the
enumerated units, which covers every worker count at task granularity), the
collected outcomes number successful_conversions + failed_conversions equals
the number of enumerated source units; the coordinator never aborts early on
a per-unit failure, since the fold produces one outcome for every unit. -/
theorem c5_outcome_cardinality (cfg : Config) (imgs : ImgFS)
    (units order : List SrcUnit) (fs : OutFS) (hperm : order.Perm units) :
    countSucceeded (runSeq cfg imgs order fs).1 +
      countFailed (runSeq cfg imgs order fs).1 = units.length := by
  rw [outcome_counts, runSeq_fst_length, hperm.length_eq]

/-- Witness for C5: one unit whose parse failed still yields exactly one
outcome. -/
theorem c5_outcome_cardinality_witness :
    countSucceeded (runSeq ⟨"src", "yolo", ["cat"]⟩ [] [⟨"a.xml", none⟩] []).1 +
      countFailed (runSeq ⟨"src", "yolo", ["cat"]⟩ [] [⟨"a.xml", none⟩] []).1 = 1 :=
  c5_outcome_cardinality ⟨"src", "yolo", ["cat"]⟩ [] [⟨"a.xml", none⟩]
    [⟨"a.xml", none⟩] [] (List.Perm.refl _)

/-- C4, counterexample: the claim asserts the failure diagnostic carries the
attempted candidate paths, but the message of line 130 names only the
stem-with-extension candidates; for an annotation with no size element whose
filename field declares custom.png (attempted and found missing, so the
resolver fails unresolved), the diagnostic does not mention custom.png. -/
theorem c4_diagnostic_cex :
    get_image_size [] "d" "d/u.xml" "u" ⟨none, some (some "custom.png"), []⟩ =
        Except.error (SizeErr.sizeUnresolved "d/u.xml" "u") ∧
    sizeErrMsg (SizeErr.sizeUnresolved "d/u.xml" "u") =
      "Could not find corresponding image file for d/u.xml. Tried: u.jpg/.jpeg/.png/.bmp" ∧
    strContains (sizeErrMsg (SizeErr.sizeUnresolved "d/u.xml" "u")) "custom.png"
      = false := by
  refine ⟨rfl, rfl, ?_⟩
  decide

/-- C4 amended: the resolver tries the embedded size, then sibling images
over the ordered extension list, then the declared filename, stopping at the
first success; it fails unresolved exactly when all three fail; the
diagnostic carries the annotation path and the stem-with-extension candidate
names, but not the declared-filename candidate. -/
theorem c4_resolver_order (fs : ImgFS) (dir xmlPath stem : String) (xml : XmlTree) :
    (∀ w h, xml.sizeElem = some (some w, some h) →
      get_image_size fs dir xmlPath stem xml = Except.ok (w, h)) ∧
    (∀ pre ext post wh, xml.sizeElem = none → extList = pre ++ ext :: post →
      (∀ e ∈ pre, imgLookup fs (joinPath dir (stem ++ e)) = none) →
      imgLookup fs (joinPath dir (stem ++ ext)) = some (some wh) →
      get_image_size fs dir xmlPath stem xml = Except.ok wh) ∧
    (∀ fn wh, xml.sizeElem = none →
      (∀ ext ∈ extList, imgLookup fs (joinPath dir (stem ++ ext)) = none) →
      xml.filenameElem = some (some fn) → fn ≠ "" →
      imgLookup fs (joinPath dir fn) = some (some wh) →
      get_image_size fs dir xmlPath stem xml = Except.ok wh) ∧
    (get_image_size fs dir xmlPath stem xml =
        Except.error (SizeErr.sizeUnresolved xmlPath stem) ↔
      xml.sizeElem = none ∧
      (∀ ext ∈ extList, imgLookup fs (joinPath dir (stem ++ ext)) = none) ∧
      (∀ fn, xml.filenameElem = some (some fn) → fn ≠ "" →
        imgLookup fs (joinPath dir fn) = none)) ∧
    sizeErrMsg (SizeErr.sizeUnresolved xmlPath stem) =
      "Could not find corresponding image file for " ++ xmlPath ++
        ". Tried: " ++ stem ++ ".jpg/.jpeg/.png/.bmp" := by
  refine ⟨?_, ?_, ?_, get_image_size_unresolved_iff fs dir xmlPath stem xml, rfl⟩
  · intro w h hse
    simp [get_image_size, hse]
  · intro pre ext post wh hse hsplit hpre hlk
    have ht : tryExts fs dir stem extList = some (Except.ok wh) := by
      rw [hsplit, tryExts_first_existing fs dir stem pre ext post hpre, hlk]
    simp [get_image_size, hse, ht]
  · intro fn wh hse hall hfe hfn hlk
    have ht : tryExts fs dir stem extList = none :=
      (tryExts_eq_none_iff fs dir stem extList).mpr hall
    simp [get_image_size, hse, ht, hfe, hfn, hlk]

/-- Witness for the amended C4: a readable sibling u.jpeg decides the result
when u.jpg does not exist. -/
theorem c4_resolver_order_witness :
    get_image_size [("d/u.jpeg", some (640, 480))] "d" "d/u.xml" "u"
      ⟨none, none, []⟩ = Except.ok (640, 480) :=
  (c4_resolver_order [("d/u.jpeg", some (640, 480))] "d" "d/u.xml" "u"
      ⟨none, none, []⟩).2.1 [".jpg"] ".jpeg" [".png", ".bmp"] (640, 480)
    rfl rfl (by decide) (by rfl)

/-- C7, counterexample: the claim says the resolver never returns a
non-positive dimension, but an annotation declaring an embedded size of
(0,0) is returned exactly as declared, with no positivity check. -/
theorem c7_positive_size_cex :
    get_image_size [] "d" "d/u.xml" "u" ⟨some (some 0, some 0), none, []⟩ =
        Except.ok (0, 0) ∧
    ¬ (0 : ℤ) < 0 := ⟨rfl, by norm_num⟩

/-- C7 amended: the resolver passes dimensions through unvalidated: an
embedded size is returned exactly as declared (so (0,0) is possible), while
a resolution that came from image files (embedded size absent) is positive
whenever every readable image on disk has positive dimensions. -/
theorem c7_positive_size_amended (fs : ImgFS) (dir xmlPath stem : String)
    (xml : XmlTree) (w h : ℤ)
    (hpos : ∀ p wh, imgLookup fs p = some (some wh) → 0 < wh.1 ∧ 0 < wh.2) :
    (∀ a b, xml.sizeElem = some (some a, some b) →
      get_image_size fs dir xmlPath stem xml = Except.ok (a, b)) ∧
    (xml.sizeElem = none →
      get_image_size fs dir xmlPath stem xml = Except.ok (w, h) →
      0 < w ∧ 0 < h) := by
  constructor
  · intro a b hse
    simp [get_image_size, hse]
  · intro hse hok
    cases htry : tryExts fs dir stem extList with
    | some r =>
      cases r with
      | ok wh =>
        obtain ⟨p, hp⟩ := tryExts_ok fs dir stem extList wh htry
        have : wh = (w, h) := by
          simp only [get_image_size, hse, htry] at hok
          exact Except.ok.inj hok
        subst this
        exact hpos p (w, h) hp
      | error e2 =>
        simp [get_image_size, hse, htry] at hok
    | none =>
      cases hfe : xml.filenameElem with
      | none => simp [get_image_size, hse, htry, hfe] at hok
      | some ofn =>
        cases ofn with
        | none => simp [get_image_size, hse, htry, hfe] at hok
        | some fn =>
          by_cases hfn : fn = ""
          · subst hfn
            simp [get_image_size, hse, htry, hfe] at hok
          · cases hlk : imgLookup fs (joinPath dir fn) with
            | none => simp [get_image_size, hse, htry, hfe, hfn, hlk] at hok
            | some r =>
              cases r with
              | none => simp [get_image_size, hse, htry, hfe, hfn, hlk] at hok
              | some wh =>
                have : wh = (w, h) := by
                  simp only [get_image_size, hse, htry, hfe] at hok
                  rw [if_neg hfn, hlk] at hok
                  exact Except.ok.inj hok
                subst this
                exact hpos (joinPath dir fn) (w, h) hlk

/-- Object loop on a raising-free object list: every object is processed and
the emitted lines appear in document order after the accumulator. -/
theorem runObjects_no_error (tbl : List String) (w h : ℤ) :
    ∀ objs acc, (∀ o ∈ objs, exceptOk (stepObj tbl w h o) = true) →
      runObjects tbl w h objs acc =
        (acc.reverse ++ emittedLines tbl w h objs, none) := by
  intro objs
  induction objs with
  | nil => intro acc hall; simp [runObjects, emittedLines]
  | cons o os ih =>
    intro acc hall
    have hos : ∀ x ∈ os, exceptOk (stepObj tbl w h x) = true :=
      fun x hx => hall x (List.mem_cons_of_mem o hx)
    cases hs : stepObj tbl w h o with
    | error e =>
      have := hall o (List.mem_cons_self o os)
      rw [hs] at this
      exact Bool.noConfusion this
    | ok r =>
      cases r with
      | none =>
        simp only [runObjects, hs]
        rw [ih acc hos]
        simp [emittedLines, hs]
      | some line =>
        simp only [runObjects, hs]
        rw [ih (line :: acc) hos]
        simp [emittedLines, hs]

/-- C9: when the size of a unit cannot be resolved (no embedded size, no
sibling image by any tried extension, no existing declared filename), the
conversion task returns a failure outcome carrying the unresolved diagnostic
and the output file system is left untouched: no file is created or modified
at the destination of the unit (or anywhere else). -/
theorem c9_size_unresolved_outcome (cfg : Config) (imgs : ImgFS) (fs : OutFS)
    (u : SrcUnit) (xml : XmlTree) (hx : u.xml = some xml)
    (hse : xml.sizeElem = none)
    (hext : ∀ ext ∈ extList, imgLookup imgs
      (joinPath (dirname (joinPath cfg.srcRoot u.relPath))
        (baseStem (joinPath cfg.srcRoot u.relPath) ++ ext)) = none)
    (hfn : ∀ fn, xml.filenameElem = some (some fn) → fn ≠ "" →
      imgLookup imgs (joinPath (dirname (joinPath cfg.srcRoot u.relPath)) fn) = none) :
    (process_xml_file cfg imgs fs u).1.success = false ∧
    (process_xml_file cfg imgs fs u).1.msg =
      sizeErrMsg (SizeErr.sizeUnresolved (joinPath cfg.srcRoot u.relPath)
        (baseStem (joinPath cfg.srcRoot u.relPath))) ∧
    (process_xml_file cfg imgs fs u).2 = fs := by
  have hsz := (get_image_size_unresolved_iff imgs
      (dirname (joinPath cfg.srcRoot u.relPath)) (joinPath cfg.srcRoot u.relPath)
      (baseStem (joinPath cfg.srcRoot u.relPath)) xml).mpr ⟨hse, hext, hfn⟩
  simp [process_xml_file, hx, hsz]

/-- Witness for C9: a unit with no size source leaves the pre-existing output
file system unchanged. -/
theorem c9_size_unresolved_outcome_witness :
    (process_xml_file ⟨"src", "yolo", ["cat"]⟩ [] [("z", "old")]
        ⟨"a/img1.xml", some ⟨none, none, []⟩⟩).2 = [("z", "old")] :=
  (c9_size_unresolved_outcome ⟨"src", "yolo", ["cat"]⟩ [] [("z", "old")]
      ⟨"a/img1.xml", some ⟨none, none, []⟩⟩ ⟨none, none, []⟩ rfl rfl
      (by decide) (fun fn h _hne => Option.noConfusion h)).2.2

/-- C3, counterexample: the claim says an object missing its class name is
skipped and the unit still succeeds with all remaining valid objects emitted;
but in the code `obj.find` returning `None` makes the `.text` access raise,
aborting the unit: with one nameless object between two valid ones the
outcome is failure and only the first line was written (not two lines). -/
theorem c3_skip_policy_cex :
    (process_xml_file ⟨"src", "yolo", ["cat"]⟩ [] []
        ⟨"a/f.xml", some ⟨some (some 100, some 50), none,
          [⟨some (some "cat"), some ⟨some 10, some 10, some 30, some 30⟩⟩,
           ⟨none, some ⟨some 10, some 10, some 30, some 30⟩⟩,
           ⟨some (some "cat"), some ⟨some 10, some 10, some 30, some 30⟩⟩]⟩⟩).1.success
      = false ∧
    fsLookup (process_xml_file ⟨"src", "yolo", ["cat"]⟩ [] []
        ⟨"a/f.xml", some ⟨some (some 100, some 50), none,
          [⟨some (some "cat"), some ⟨some 10, some 10, some 30, some 30⟩⟩,
           ⟨none, some ⟨some 10, some 10, some 30, some 30⟩⟩,
           ⟨some (some "cat"), some ⟨some 10, some 10, some 30, some 30⟩⟩]⟩⟩).2
        "yolo/a/f.txt"
      = some "0 0.2 0.4 0.2 0.4\n" := by
  constructor
  · with_unfolding_all decide
  · with_unfolding_all decide

/-- C3 amended: objects whose class name is absent from the class table, and
objects with no `bndbox` element at all, are skipped without aborting the
unit; when no object of the unit raises (no missing `name` element and no
incomplete `bndbox`), the unit succeeds and exactly the remaining valid
objects are emitted in document order. An object missing its `name` element
or missing a coordinate child, however, raises and fails the whole unit. -/
theorem c3_partial_skip_amended (cfg : Config) (imgs : ImgFS) (fs : OutFS)
    (u : SrcUnit) (xml : XmlTree) (w h : ℤ) (hx : u.xml = some xml)
    (hsz : get_image_size imgs (dirname (joinPath cfg.srcRoot u.relPath))
      (joinPath cfg.srcRoot u.relPath) (baseStem (joinPath cfg.srcRoot u.relPath)) xml
      = Except.ok (w, h))
    (hok : ∀ o ∈ xml.objects, exceptOk (stepObj cfg.classTable w h o) = true) :
    (process_xml_file cfg imgs fs u).1.success = true ∧
    fsLookup (process_xml_file cfg imgs fs u).2 (outputPath cfg.outRoot u.relPath)
      = some (linesToContent (emittedLines cfg.classTable w h xml.objects)) ∧
    (∀ o : XmlObject, ∀ cn, o.nameElem = some (some cn) → cn ∉ cfg.classTable →
      stepObj cfg.classTable w h o = Except.ok none) ∧
    (∀ cn, stepObj cfg.classTable w h ⟨some (some cn), none⟩ = Except.ok none) := by
  have hro := runObjects_no_error cfg.classTable w h xml.objects [] hok
  refine ⟨?_, ?_, ?_, ?_⟩
  · simp [process_xml_file, hx, hsz, hro]
  · simp [process_xml_file, hx, hsz, hro, fsLookup]
  · intro o cn hname hnot
    simp [stepObj, hname, hnot]
  · intro cn
    by_cases hmem : cn ∈ cfg.classTable
    · simp [stepObj, hmem]
    · simp [stepObj, hmem]

/-- Witness for the amended C3: a unit with one valid object, one
unknown-class object, and one object with no bndbox succeeds and emits
exactly the line of the valid object. -/
theorem c3_partial_skip_amended_witness :
    (process_xml_file ⟨"src", "yolo", ["cat"]⟩ [] []
        ⟨"a/f.xml", some ⟨some (some 100, some 50), none,
          [⟨some (some "cat"), some ⟨some 10, some 10, some 30, some 30⟩⟩,
           ⟨some (some "bird"), some ⟨some 10, some 10, some 30, some 30⟩⟩,
           ⟨some (some "cat"), none⟩]⟩⟩).1.success = true :=
  (c3_partial_skip_amended ⟨"src", "yolo", ["cat"]⟩ [] []
      ⟨"a/f.xml", some ⟨some (some 100, some 50), none,
        [⟨some (some "cat"), some ⟨some 10, some 10, some 30, some 30⟩⟩,
         ⟨some (some "bird"), some ⟨some 10, some 10, some 30, some 30⟩⟩,
         ⟨some (some "cat"), none⟩]⟩⟩
      ⟨some (some 100, some 50), none,
        [⟨some (some "cat"), some ⟨some 10, some 10, some 30, some 30⟩⟩,
         ⟨some (some "bird"), some ⟨some 10, some 10, some 30, some 30⟩⟩,
         ⟨some (some "cat"), none⟩]⟩
      100 50 rfl rfl (by with_unfolding_all decide)).1

/-- C10: failure after size resolution is not atomic. For a unit whose size
resolves, with a first valid object and a second object whose bndbox is
present but missing its xmin child, the outcome is failure while the
destination file was truncated and left holding the partial output (one
line), clobbering the pre-existing content OLD at that path. -/
theorem c10_nonatomic_failure :
    (process_xml_file ⟨"src", "yolo", ["cat"]⟩ [] [("yolo/a/f.txt", "OLD")]
        ⟨"a/f.xml", some ⟨some (some 100, some 50), none,
          [⟨some (some "cat"), some ⟨some 10, some 10, some 30, some 30⟩⟩,
           ⟨some (some "cat"), some ⟨none, some 10, some 30, some 30⟩⟩]⟩⟩).1.success
      = false ∧
    fsLookup (process_xml_file ⟨"src", "yolo", ["cat"]⟩ [] [("yolo/a/f.txt", "OLD")]
        ⟨"a/f.xml", some ⟨some (some 100, some 50), none,
          [⟨some (some "cat"), some ⟨some 10, some 10, some 30, some 30⟩⟩,
           ⟨some (some "cat"), some ⟨none, some 10, some 30, some 30⟩⟩]⟩⟩).2
        "yolo/a/f.txt"
      = some "0 0.2 0.4 0.2 0.4\n" ∧
    ("0 0.2 0.4 0.2 0.4\n" : String) ≠ "OLD" := by
  refine ⟨?_, ?_, ?_⟩
  · with_unfolding_all decide
  · with_unfolding_all decide
  · decide

/-- Witness for the amended C7: a readable sibling image of size (7,9) gives
a positive resolved size. -/
theorem c7_positive_size_amended_witness : (0 : ℤ) < 7 ∧ (0 : ℤ) < 9 :=
  (c7_positive_size_amended [("d/u.jpg", some (7, 9))] "d" "d/u.xml" "u"
      ⟨none, none, []⟩ 7 9 (by
    intro p wh h
    by_cases hp : p = "d/u.jpg"
    · rw [imgLookup, if_pos hp] at h
      have hwh : (7, 9) = wh := Option.some.inj (Option.some.inj h)
      rw [← hwh]
      exact ⟨by norm_num, by norm_num⟩
    · rw [imgLookup, if_neg hp] at h
      exact Option.noConfusion h)).2 rfl rfl

/-- File effect of one conversion task: the resulting output file system is
the isolated effect of the task applied to the incoming one. -/
theorem process_xml_file_snd (cfg : Config) (imgs : ImgFS) (fs : OutFS)
    (u : SrcUnit) :
    (process_xml_file cfg imgs fs u).2 = applyEffect (unitEffect cfg imgs u) fs := by
  cases hx : u.xml with
  | none => simp [process_xml_file, unitEffect, applyEffect, hx]
  | some xml =>
    cases hs : get_image_size imgs (dirname (joinPath cfg.srcRoot u.relPath))
        (joinPath cfg.srcRoot u.relPath) (baseStem (joinPath cfg.srcRoot u.relPath)) xml with
    | error e => simp [process_xml_file, unitEffect, applyEffect, hx, hs]
    | ok wh =>
      obtain ⟨w, h⟩ := wh
      cases hr : (runObjects cfg.classTable w h xml.objects []).2 with
      | none => simp [process_xml_file, unitEffect, applyEffect, hx, hs, hr]
      | some e => simp [process_xml_file, unitEffect, applyEffect, hx, hs, hr]

/-- A task that writes at all writes at its own destination path. -/
theorem unitEffect_fst (cfg : Config) (imgs : ImgFS) (u : SrcUnit) :
    ∀ pc, unitEffect cfg imgs u = some pc →
      pc.1 = outputPath cfg.outRoot u.relPath := by
  intro pc h
  cases hx : u.xml with
  | none => simp [unitEffect, hx] at h
  | some xml =>
    cases hs : get_image_size imgs (dirname (joinPath cfg.srcRoot u.relPath))
        (joinPath cfg.srcRoot u.relPath) (baseStem (joinPath cfg.srcRoot u.relPath)) xml with
    | error e => simp [unitEffect, hx, hs] at h
    | ok wh =>
      obtain ⟨w, hh⟩ := wh
      simp only [unitEffect, hx, hs] at h
      cases Option.some.inj h
      rfl

/-- Batch folds started from lookup-equal file systems stay lookup-equal. -/
theorem runSeq_snd_congr (cfg : Config) (imgs : ImgFS) :
    ∀ (units : List SrcUnit) (fs1 fs2 : OutFS),
      (∀ q, fsLookup fs1 q = fsLookup fs2 q) →
      ∀ q, fsLookup (runSeq cfg imgs units fs1).2 q =
        fsLookup (runSeq cfg imgs units fs2).2 q := by
  intro units
  induction units with
  | nil => intro fs1 fs2 h q; exact h q
  | cons u us ih =>
    intro fs1 fs2 h q
    simp only [runSeq]
    apply ih
    intro q2
    rw [process_xml_file_snd, process_xml_file_snd]
    cases he : unitEffect cfg imgs u with
    | none => simpa [applyEffect] using h q2
    | some pc =>
      obtain ⟨p, c⟩ := pc
      by_cases hq : q2 = p
      · simp [applyEffect, fsLookup, hq]
      · simpa [applyEffect, fsLookup, hq] using h q2

/-- Two tasks with distinct destination paths commute on lookups. -/
theorem runStep_comm (cfg : Config) (imgs : ImgFS) (u v : SrcUnit)
    (hne : outputPath cfg.outRoot u.relPath ≠ outputPath cfg.outRoot v.relPath)
    (fs : OutFS) (q : String) :
    fsLookup (applyEffect (unitEffect cfg imgs v)
        (applyEffect (unitEffect cfg imgs u) fs)) q =
      fsLookup (applyEffect (unitEffect cfg imgs u)
        (applyEffect (unitEffect cfg imgs v) fs)) q := by
  cases heu : unitEffect cfg imgs u with
  | none => simp [applyEffect]
  | some pu =>
    obtain ⟨pu1, pu2⟩ := pu
    have hu1 : pu1 = outputPath cfg.outRoot u.relPath :=
      unitEffect_fst cfg imgs u (pu1, pu2) heu
    cases hev : unitEffect cfg imgs v with
    | none => simp [applyEffect]
    | some pv =>
      obtain ⟨pv1, pv2⟩ := pv
      have hv1 : pv1 = outputPath cfg.outRoot v.relPath :=
        unitEffect_fst cfg imgs v (pv1, pv2) hev
      have hpp : pu1 ≠ pv1 := by
        rw [hu1, hv1]
        exact hne
      simp only [applyEffect, fsLookup]
      by_cases h1 : q = pv1
      · rw [if_pos h1, if_neg (by rw [h1]; exact fun hc => hpp hc.symm), if_pos h1]
      · rw [if_neg h1]
        by_cases h2 : q = pu1
        · rw [if_pos h2, if_pos h2]
        · rw [if_neg h2, if_neg h2, if_neg h1]

set_option maxHeartbeats 2000000 in
/-- With pairwise-distinct destination paths, the final output files do not
depend on the completion order (looked up path by path). -/
theorem runSeq_lookup_perm (cfg : Config) (imgs : ImgFS) :
    ∀ {l1 l2 : List SrcUnit}, l1.Perm l2 →
      (l1.map (fun u => outputPath cfg.outRoot u.relPath)).Nodup →
      ∀ fs q, fsLookup (runSeq cfg imgs l1 fs).2 q =
        fsLookup (runSeq cfg imgs l2 fs).2 q := by
  intro l1 l2 hp
  induction hp with
  | nil => intro hnd fs q; rfl
  | cons x hp ih =>
    intro hnd fs q
    simp only [runSeq]
    rw [List.map_cons] at hnd
    exact ih hnd.of_cons _ q
  | swap x y l =>
    intro hnd fs q
    rw [List.map_cons, List.map_cons] at hnd
    have hyx : outputPath cfg.outRoot y.relPath ≠ outputPath cfg.outRoot x.relPath := by
      have hni := (List.nodup_cons.mp hnd).1
      intro hc
      exact hni (List.mem_cons.mpr (Or.inl hc))
    simp only [runSeq]
    apply runSeq_snd_congr
    intro q2
    rw [process_xml_file_snd, process_xml_file_snd,
      process_xml_file_snd, process_xml_file_snd]
    exact runStep_comm cfg imgs y x hyx fs q2
  | trans hp1 hp2 ih1 ih2 =>
    intro hnd fs q
    have hnd2 := List.Perm.nodup
      (List.Perm.map (fun u => outputPath cfg.outRoot u.relPath) hp1) hnd
    rw [ih1 hnd fs q, ih2 hnd2 fs q]

/-- C6, counterexample: the claim asserts byte-identical output files for
every input tree regardless of worker count, but destination paths can
collide: a directory holding the two annotation units .xml and .xml.xml maps
both to the destination .xml.txt (Python splitext treats a leading-dot
component as having no extension), so the final bytes at that path depend on
the completion order, which a parallel pool does not fix. -/
theorem c6_parallel_identity_cex :
    ((([⟨".xml", some ⟨some (some 100, some 100), none,
          [⟨some (some "cat"), some ⟨some 0, some 0, some 10, some 10⟩⟩]⟩⟩,
        ⟨".xml.xml", some ⟨some (some 100, some 100), none,
          [⟨some (some "cat"), some ⟨some 0, some 0, some 20, some 20⟩⟩]⟩⟩] :
        List SrcUnit)).Perm
      [⟨".xml.xml", some ⟨some (some 100, some 100), none,
          [⟨some (some "cat"), some ⟨some 0, some 0, some 20, some 20⟩⟩]⟩⟩,
        ⟨".xml", some ⟨some (some 100, some 100), none,
          [⟨some (some "cat"), some ⟨some 0, some 0, some 10, some 10⟩⟩]⟩⟩]) ∧
    fsLookup (runSeq ⟨"src", "out", ["cat"]⟩ []
        [⟨".xml", some ⟨some (some 100, some 100), none,
          [⟨some (some "cat"), some ⟨some 0, some 0, some 10, some 10⟩⟩]⟩⟩,
         ⟨".xml.xml", some ⟨some (some 100, some 100), none,
          [⟨some (some "cat"), some ⟨some 0, some 0, some 20, some 20⟩⟩]⟩⟩] []).2
        "out/.xml.txt" ≠
      fsLookup (runSeq ⟨"src", "out", ["cat"]⟩ []
        [⟨".xml.xml", some ⟨some (some 100, some 100), none,
          [⟨some (some "cat"), some ⟨some 0, some 0, some 20, some 20⟩⟩]⟩⟩,
         ⟨".xml", some ⟨some (some 100, some 100), none,
          [⟨some (some "cat"), some ⟨some 0, some 0, some 10, some 10⟩⟩]⟩⟩] []).2
        "out/.xml.txt" := by
  constructor
  · exact List.Perm.swap _ _ []
  · with_unfolding_all decide

/-- C6 amended: when the destination paths of the enumerated units are
pairwise distinct (which holds for every ordinary tree, but fails when a
directory holds both a leading-dot unit .xml and a unit .xml.xml), any two
completion orders of the same unit list produce identical output files at
every path; and the content each unit writes is the lines of its objects in
document order, so line order mirrors object order independently of the
worker count. -/
theorem c6_order_invariance (cfg : Config) (imgs : ImgFS)
    (units order : List SrcUnit) (fs : OutFS) (hperm : order.Perm units)
    (hnd : (units.map (fun u => outputPath cfg.outRoot u.relPath)).Nodup) :
    (∀ q, fsLookup (runSeq cfg imgs order fs).2 q =
      fsLookup (runSeq cfg imgs units fs).2 q) ∧
    (∀ (u : SrcUnit) (xml : XmlTree) (w h : ℤ), u.xml = some xml →
      get_image_size imgs (dirname (joinPath cfg.srcRoot u.relPath))
        (joinPath cfg.srcRoot u.relPath) (baseStem (joinPath cfg.srcRoot u.relPath)) xml
        = Except.ok (w, h) →
      unitEffect cfg imgs u = some (outputPath cfg.outRoot u.relPath,
        linesToContent (runObjects cfg.classTable w h xml.objects []).1)) := by
  constructor
  · intro q
    refine runSeq_lookup_perm cfg imgs hperm ?_ fs q
    rw [List.Perm.nodup_iff (hperm.map (fun u => outputPath cfg.outRoot u.relPath))]
    exact hnd
  · intro u xml w h hx hs
    simp [unitEffect, hx, hs]

/-- Witness for the amended C6: two units processed in either order give the
same lookup at a destination path. -/
theorem c6_order_invariance_witness :
    fsLookup (runSeq ⟨"src", "yolo", ["cat"]⟩ []
        [⟨"b.xml", none⟩, ⟨"a.xml", none⟩] []).2 "yolo/a.txt" =
      fsLookup (runSeq ⟨"src", "yolo", ["cat"]⟩ []
        [⟨"a.xml", none⟩, ⟨"b.xml", none⟩] []).2 "yolo/a.txt" :=
  (c6_order_invariance ⟨"src", "yolo", ["cat"]⟩ []
      [⟨"a.xml", none⟩, ⟨"b.xml", none⟩] [⟨"b.xml", none⟩, ⟨"a.xml", none⟩] []
      (List.Perm.swap _ _ []) (by decide)).1 "yolo/a.txt"
